import Mathlib

/-
Verification development for the gpu_pricecheck repository.

Shallow embedding of the Rust sources in src/: the scraping pipeline
(src/scraper.rs, src/main.rs), the filter and sort logic (src/main.rs),
the per-variant aggregation (src/web.rs) and, where noted, behaviour of
the cheapest-each mode modelled from the specification because its
implementation is not under src/.

Modelling conventions:
- Rust `f64` prices always come from the regex match `[\d,]+\.\d` followed
  by one more digit, i.e. a decimal with exactly two fraction digits, so a
  numeric price is represented exactly as an integer amount of cents (Nat).
- Rust `String` maps to Lean `String`; `str::trim` and
  `str::to_lowercase` are modelled on ASCII (the sources only compare
  ASCII status strings such as "out of stock").
- An HTML document is abstracted by what the fixed selectors can observe:
  the optional anchor table (first match of the selector
  "#data > table.table"), its rows (tbody > tr), each row a list of cells
  (td), each cell carrying its collected text, its optional title
  attribute, and its list of inner anchors (a) with text and optional
  href.
- Rust `Result` maps to `Except String`.
-/

namespace GpuCheck

/-- One inventory entry: struct GpuListing of src/scraper.rs (and the
identical struct in src/main.rs).  `price_numeric` is the optional parsed
price in cents. -/
structure GpuListing where
  name : String
  status : String
  price : String
  price_numeric : Option Nat
  last_available : String
  link : String
deriving Repr, DecidableEq

/-- Character-level model of Rust `str::trim` for ASCII whitespace. -/
def trimStr (s : String) : String :=
  ⟨((s.data.dropWhile Char.isWhitespace).reverse.dropWhile Char.isWhitespace).reverse⟩

/-- Character-level model of Rust `str::to_lowercase` on ASCII input. -/
def lowerStr (s : String) : String :=
  ⟨s.data.map Char.toLower⟩

/-- Check that `p` is a prefix of `l` (Boolean, over characters). -/
def startsWith : List Char → List Char → Bool
  | [], _ => true
  | _ :: _, [] => false
  | p :: ps, c :: cs => p == c && startsWith ps cs

/-- Check that `pat` occurs as a contiguous substring of `l`. -/
def occursIn (pat : List Char) : List Char → Bool
  | [] => pat.isEmpty
  | c :: cs => startsWith pat (c :: cs) || occursIn pat cs

/-- Model of Rust `str::contains(pat)` for a literal pattern. -/
def containsSubstr (s pat : String) : Bool :=
  occursIn pat.data s.data

/-- Character class `[\d,]` of the price regex in src/scraper.rs and
src/main.rs (`PRICE_RE`). -/
def isPriceChar (c : Char) : Bool := c.isDigit || c == ','

/-- Numeric value of a list of decimal digit characters. -/
def digitsToNat (ds : List Char) : Nat :=
  ds.foldl (fun n c => 10 * n + (c.toNat - Char.toNat (Char.ofNat 48))) 0

/-- Model of Rust `str::parse` applied to a comma-stripped regex match:
the input has shape digits* then a dot then exactly two digits, and the
result is the value in cents; any other shape gives none. -/
def parseDecimalCents (cs : List Char) : Option Nat :=
  match cs.dropWhile Char.isDigit with
  | '.' :: d1 :: d2 :: [] =>
      if d1.isDigit && d2.isDigit then
        some (100 * digitsToNat (cs.takeWhile Char.isDigit) +
          10 * (d1.toNat - Char.toNat (Char.ofNat 48)) +
          (d2.toNat - Char.toNat (Char.ofNat 48)))
      else none
  | _ => none

/-- Try to match `PRICE_RE` (pattern `[\d,]+\.\d` and one more digit, as in
src/scraper.rs line 11) at the start of `cs`; on success return the matched
substring.  The greedy run `[\d,]+` is the maximal run of digit-or-comma
characters: no backtracked shorter run can be followed by a dot, because
every character inside the run is a digit or comma. -/
def matchPriceAt (cs : List Char) : Option (List Char) :=
  let run := cs.takeWhile isPriceChar
  if run.isEmpty then none
  else
    match cs.dropWhile isPriceChar with
    | '.' :: d1 :: d2 :: _ =>
        if d1.isDigit && d2.isDigit then some (run ++ ['.', d1, d2]) else none
    | _ => none

/-- Leftmost match of `PRICE_RE` in `cs`: model of `Regex::find`. -/
def findPriceMatch : List Char → Option (List Char)
  | [] => none
  | c :: cs =>
      match matchPriceAt (c :: cs) with
      | some m => some m
      | none => findPriceMatch cs

/-- Model of fn parse_price of src/scraper.rs lines 26-30 (the identical
copy lives in src/main.rs lines 102-106): find the first `PRICE_RE` match,
remove the commas and parse the remainder as a decimal. -/
def parse_price (price_str : String) : Option Nat :=
  (findPriceMatch price_str.data).bind
    (fun m => parseDecimalCents (m.filter (fun c => c != ',')))

/-- Modelled from the spec: try to match the reference pattern of the spec,
a digit, then `[\d,]*`, then a dot and two digits, at the start of the
input.  Differs from `matchPriceAt` in that the first character must be a
digit, not a comma. -/
def matchRefAt : List Char → Option (List Char)
  | [] => none
  | c :: cs =>
      if c.isDigit then
        match cs.dropWhile isPriceChar with
        | '.' :: d1 :: d2 :: _ =>
            if d1.isDigit && d2.isDigit then
              some (c :: cs.takeWhile isPriceChar ++ ['.', d1, d2])
            else none
        | _ => none
      else none

/-- Modelled from the spec: leftmost match of the reference pattern. -/
def findRefMatch : List Char → Option (List Char)
  | [] => none
  | c :: cs =>
      match matchRefAt (c :: cs) with
      | some m => some m
      | none => findRefMatch cs

/-- Modelled from the spec: the reference definition of the price
normalizer in claim C3: first substring matching a digit, then `[\d,]*`,
then a dot and two digits; commas removed; parsed as a decimal. -/
def refParsePrice (s : String) : Option Nat :=
  (findRefMatch s.data).bind
    (fun m => parseDecimalCents (m.filter (fun c => c != ',')))

/-- Amended reference pattern matcher: like `matchRefAt` but the first
character may be a digit or a comma, i.e. the pattern is `[\d,]+\.\d` and
one more digit, exactly the pattern the code compiles. -/
def matchAmendedAt : List Char → Option (List Char)
  | [] => none
  | c :: cs =>
      if isPriceChar c then
        match cs.dropWhile isPriceChar with
        | '.' :: d1 :: d2 :: _ =>
            if d1.isDigit && d2.isDigit then
              some (c :: cs.takeWhile isPriceChar ++ ['.', d1, d2])
            else none
        | _ => none
      else none

/-- Leftmost match of the amended reference pattern. -/
def findAmendedMatch : List Char → Option (List Char)
  | [] => none
  | c :: cs =>
      match matchAmendedAt (c :: cs) with
      | some m => some m
      | none => findAmendedMatch cs

/-- Amended reference definition of the price normalizer: first substring
matching `[\d,]+\.\d` and one more digit, commas removed, parsed as a
decimal. -/
def refParsePriceAmended (s : String) : Option Nat :=
  (findAmendedMatch s.data).bind
    (fun m => parseDecimalCents (m.filter (fun c => c != ',')))

/-- Sort keys: enum SortColumn of src/main.rs lines 20-26 and
src/cli.rs lines 48-56. -/
inductive SortColumn where
  | name
  | status
  | price
  | lastAvailable
  | link
deriving Repr, DecidableEq

/-- Lexicographic comparison of character lists, modelling Rust string
comparison (bytewise on UTF-8, which agrees with code-point order). -/
def cmpChars : List Char → List Char → Ordering
  | [], [] => .eq
  | [], _ :: _ => .lt
  | _ :: _, [] => .gt
  | c :: cs, d :: ds =>
      if c < d then .lt else if d < c then .gt else cmpChars cs ds

/-- Model of Rust `String::cmp`. -/
def cmpStr (a b : String) : Ordering := cmpChars a.data b.data

/-- Comparison of numeric prices in cents, modelling `partial_cmp` on the
two parsed `f64` prices (never NaN, so `unwrap_or(Equal)` never fires). -/
def cmpNat (a b : Nat) : Ordering :=
  if a < b then .lt else if b < a then .gt else .eq

/-- The comparator body of the sort closure in src/main.rs lines 307-321,
before the direction flip: compare by the selected column; for the price
column a listing with a numeric price is less than one without, and two
listings without numeric prices compare by raw price text. -/
def cmpListings (col : SortColumn) (a b : GpuListing) : Ordering :=
  match col with
  | .name => cmpStr a.name b.name
  | .status => cmpStr a.status b.status
  | .price =>
      match a.price_numeric, b.price_numeric with
      | some pa, some pb => cmpNat pa pb
      | some _, none => .lt
      | none, some _ => .gt
      | none, none => cmpStr a.price b.price
  | .lastAvailable => cmpStr a.last_available b.last_available
  | .link => cmpStr a.link b.link

/-- The full comparator of src/main.rs lines 307-328: the computed ordering
is reversed as a final step when descending order was requested. -/
def cmpWithDir (col : SortColumn) (desc : Bool) (a b : GpuListing) : Ordering :=
  let ordering := cmpListings col a b
  if desc then ordering.swap else ordering

/-- Insert `x` into `l`, after every element that does not compare greater
than `x`.  Stable-insertion building block for `sortByCmp`. -/
def insertByCmp (cmp : GpuListing → GpuListing → Ordering) (x : GpuListing) :
    List GpuListing → List GpuListing
  | [] => [x]
  | y :: ys =>
      if cmp x y == .gt then y :: insertByCmp cmp x ys else x :: y :: ys

/-- Stable sort by a comparator.  Rust `slice::sort_by` is a stable sort;
for the total preorders used here every stable sort produces the same
sequence, so stable insertion sort is a faithful model. -/
def sortByCmp (cmp : GpuListing → GpuListing → Ordering) :
    List GpuListing → List GpuListing
  | [] => []
  | x :: xs => insertByCmp cmp x (sortByCmp cmp xs)

/-- The sort step of fn main in src/main.rs lines 305-329: when the list
is non-empty, sort it by the selected column and direction. -/
def sortListings (col : SortColumn) (desc : Bool)
    (listings : List GpuListing) : List GpuListing :=
  if listings.isEmpty then listings
  else sortByCmp (cmpWithDir col desc) listings

/-- The filter step of fn main in src/main.rs lines 291-303: with the
show-all flag off, retain only the listings whose lower-cased status is
neither "out of stock" nor "not tracking"; with it on, keep everything. -/
def filterListings (showAll : Bool) (listings : List GpuListing) :
    List GpuListing :=
  if showAll then listings
  else
    listings.filter (fun item =>
      let lower := lowerStr item.status
      lower != "out of stock" && lower != "not tracking")

/-- One inner anchor (an `a` element) of a table cell: its collected text
and its optional href attribute. -/
structure LinkEl where
  text : String
  href : Option String
deriving Repr, DecidableEq

/-- One table cell (a `td` element): its inner anchors in document order,
its collected text, and its optional title attribute. -/
structure Cell where
  links : List LinkEl
  text : String
  title : Option String
deriving Repr, DecidableEq

/-- One table row (a `tbody > tr` element), as its list of cells. -/
abbrev Row := List Cell

/-- A parsed HTML document, abstracted to what the selectors of
parse_listings observe: the first match of the anchor-table selector, when
present, as its list of rows. -/
structure Document where
  table : Option (List Row)
deriving Repr, DecidableEq

/-- The marketplace branch shared verbatim by both parse_listings copies
(src/scraper.rs lines 73-90, src/main.rs lines 142-159): a two-cell row
whose first cell has an anchor whose trimmed text contains "Ebay" yields a
Listing with price "-", no numeric price and last_available "-". -/
def ebayRow : Row → Option GpuListing
  | [c0, c1] =>
      match c0.links.head? with
      | some linkEl =>
          if containsSubstr (trimStr linkEl.text) "Ebay" then
            some { name := trimStr linkEl.text
                 , status := trimStr c1.text
                 , price := "-"
                 , price_numeric := none
                 , last_available := "-"
                 , link := linkEl.href.getD "" }
          else none
      | none => none
  | _ => none

/-- Name and link of a standard row, from its first cell's first anchor
(src/scraper.rs lines 97-104, identical in src/main.rs lines 165-172):
the anchor's trimmed text and its href, else the sentinel pair. -/
def standardNameLink (cells : Row) : String × String :=
  (((cells.get? 0).bind (fun cell => cell.links.head?)).map
    (fun linkEl => (trimStr linkEl.text, linkEl.href.getD ""))).getD ("N/A", "")

/-- Status of a standard row, from its second cell (src/scraper.rs lines
106-114, identical in src/main.rs lines 174-182): the text of an inner
anchor when present, else the cell text, trimmed. -/
def standardStatus (cells : Row) : String :=
  ((cells.get? 1).map (fun cell =>
    trimStr ((cell.links.head?.map LinkEl.text).getD cell.text))).getD "N/A"

/-- Raw price of a standard row, from its third cell (src/scraper.rs lines
116-118, identical in src/main.rs lines 184-186). -/
def standardPrice (cells : Row) : String :=
  ((cells.get? 2).map (fun cell => trimStr cell.text)).getD "-"

/-- last_available of a standard row in src/scraper.rs lines 121-127:
prefer the fourth cell's title attribute, trimmed, when it is present and
non-empty after trimming; otherwise the cell's trimmed text. -/
def scraper_lastAvailable (cells : Row) : String :=
  ((cells.get? 3).map (fun cell =>
    let main_text := trimStr cell.text
    ((cell.title.map trimStr).filter (fun s => !s.isEmpty)).getD main_text)).getD "-"

/-- last_available of a standard row in src/main.rs lines 189-194: the
fourth cell's title attribute verbatim when present (no trimming, no
emptiness check), else the cell's trimmed text. -/
def main_lastAvailable (cells : Row) : String :=
  ((cells.get? 3).map (fun cell =>
    let main_text := trimStr cell.text
    cell.title.getD main_text)).getD "-"

/-- Standard-row branch of parse_listings in src/scraper.rs lines 92-142:
rows with fewer than four cells are skipped, rows whose name is the
sentinel "N/A" or empty are skipped, otherwise a Listing is built with
price_numeric derived from the raw price by parse_price. -/
def scraper_standardRow (cells : Row) : Option GpuListing :=
  if cells.length < 4 then none
  else if (standardNameLink cells).1 == "N/A" || (standardNameLink cells).1.isEmpty then none
  else
    some { name := (standardNameLink cells).1
         , status := standardStatus cells
         , price := standardPrice cells
         , price_numeric := parse_price (standardPrice cells)
         , last_available := scraper_lastAvailable cells
         , link := (standardNameLink cells).2 }

/-- Standard-row branch of parse_listings in src/main.rs lines 161-208:
identical to the scraper.rs copy except for the last_available rule. -/
def main_standardRow (cells : Row) : Option GpuListing :=
  if cells.length < 4 then none
  else if (standardNameLink cells).1 == "N/A" || (standardNameLink cells).1.isEmpty then none
  else
    some { name := (standardNameLink cells).1
         , status := standardStatus cells
         , price := standardPrice cells
         , price_numeric := parse_price (standardPrice cells)
         , last_available := main_lastAvailable cells
         , link := (standardNameLink cells).2 }

/-- Per-row behaviour of the loop body of parse_listings in
src/scraper.rs: the marketplace branch first, then the standard branch.
A two-cell row that fails the marketplace branch also fails the standard
branch (fewer than four cells), matching the continue-flow of the code. -/
def scraper_rowToListing (cells : Row) : Option GpuListing :=
  match ebayRow cells with
  | some l => some l
  | none => scraper_standardRow cells

/-- Per-row behaviour of the loop body of parse_listings in src/main.rs. -/
def main_rowToListing (cells : Row) : Option GpuListing :=
  match ebayRow cells with
  | some l => some l
  | none => main_standardRow cells

/-- The error text of both parse_listings copies when the anchor table is
missing (src/scraper.rs line 146, src/main.rs line 210). -/
def missingTableMsg : String :=
  "Could not find the data table using selector #data > table.table. The page structure might have changed."

/-- fn parse_listings of src/scraper.rs lines 56-156: fail when the anchor
table is absent; otherwise push, row by row in document order, each row
the loop body accepts. -/
def scraper_parse_listings (doc : Document) : Except String (List GpuListing) :=
  match doc.table with
  | some rows =>
      Except.ok (rows.foldl (fun acc cells =>
        match scraper_rowToListing cells with
        | some l => acc ++ [l]
        | none => acc) [])
  | none => Except.error missingTableMsg

/-- fn parse_listings of src/main.rs lines 128-218: the standalone copy,
differing from the scraper.rs copy only in the last_available rule. -/
def main_parse_listings (doc : Document) : Except String (List GpuListing) :=
  match doc.table with
  | some rows =>
      Except.ok (rows.foldl (fun acc cells =>
        match main_rowToListing cells with
        | some l => acc ++ [l]
        | none => acc) [])
  | none => Except.error missingTableMsg

/-- First listing with the minimum numeric price (in cents); listings are
compared by `price_numeric` and the earliest minimum wins.  Only called on
lists whose members all carry a numeric price. -/
def pickMin : List GpuListing → Option GpuListing
  | [] => none
  | l :: ls =>
      match pickMin ls with
      | none => some l
      | some m =>
          if l.price_numeric.getD 0 ≤ m.price_numeric.getD 0 then some l else some m

/-- Modelled from the spec: the per-variant reduction of cross-variant
cheapest-each mode (spec section 4.4) is not implemented under src/ — only
its CLI flag (src/cli.rs lines 123-125, `cheapest_each`) and the
concurrent fan-out with per-variant error isolation (src/web.rs
home_handler) are.  Per the spec: apply the filter policy, additionally
always exclude listings whose status is case-insensitively "preorder"
regardless of the show-all switch, exclude entries lacking a numeric
price, and reduce to the single entry with the minimum price_numeric. -/
def cheapestPick (showAll : Bool) (listings : List GpuListing) : Option GpuListing :=
  pickMin ((filterListings showAll listings).filter
    (fun l => lowerStr l.status != "preorder" && l.price_numeric.isSome))

/-- Modelled from the spec: cross-variant cheapest-each mode over the
per-variant outcomes, one per tracked variant in variant-enumeration
order.  `none` means that variant's fetch or extraction failed; as in
src/web.rs home_handler lines 53-73 a failure is caught per variant and
downgraded to an empty contribution instead of failing the call.  The
result is the concatenation of the per-variant picks. -/
def crossVariant (showAll : Bool)
    (outcomes : List (Option (List GpuListing))) : List GpuListing :=
  outcomes.foldr (fun o acc =>
    (match o with
     | none => []
     | some ls => (cheapestPick showAll ls).toList) ++ acc) []

/-- Erase the one field on which the two parse_listings copies can
disagree, for the agreement-modulo-last_available statement. -/
def scrubLast (l : GpuListing) : GpuListing :=
  { l with last_available := "" }

/-- The exclusion predicate of the default filter policy, written from the
claim: the status compares equal, case-insensitively, to "out of stock" or
to "not tracking". -/
def excludedByDefault (l : GpuListing) : Bool :=
  lowerStr l.status == "out of stock" || lowerStr l.status == "not tracking"

/-- The listing A of the worked example of claim C1. -/
def exA : GpuListing :=
  { name := "A", status := "In Stock", price := "$100.00",
    price_numeric := parse_price "$100.00", last_available := "-", link := "" }

/-- The listing B of the worked example of claim C1. -/
def exB : GpuListing :=
  { name := "B", status := "Out of Stock", price := "$50.00",
    price_numeric := parse_price "$50.00", last_available := "-", link := "" }

/-- The listing C of the worked example of claim C1, with no numeric
price. -/
def exC : GpuListing :=
  { name := "C", status := "In Stock", price := "-",
    price_numeric := parse_price "-", last_available := "-", link := "" }

/-- A preorder listing cheaper than `exA`, for the cheapest-each
exclusion. -/
def exPre : GpuListing :=
  { name := "P", status := "Preorder", price := "$10.00",
    price_numeric := parse_price "$10.00", last_available := "-", link := "" }

/-- A well-formed standard row used by the concrete witnesses. -/
def wGoodRow : Row :=
  [ { links := [{ text := "CardW", href := some "http://w" }], text := "CardW", title := none }
  , { links := [], text := "InStock", title := none }
  , { links := [], text := "$5.00", title := none }
  , { links := [], text := "Jan", title := none } ]

/-- A four-cell row whose first cell has no anchor: dropped by the
extractor. -/
def wNoLinkRow : Row :=
  [ { links := [], text := "a", title := none }
  , { links := [], text := "InStock", title := none }
  , { links := [], text := "$5.00", title := none }
  , { links := [], text := "Jan", title := none } ]

/-- A two-cell marketplace row used by the concrete witnesses. -/
def wEbayRow : Row :=
  [ { links := [{ text := "Ebay", href := some "http://e" }], text := "Ebay", title := none }
  , { links := [], text := "Stock Available", title := none } ]

/-- A document with a marketplace row, a good standard row and a
malformed row. -/
def wDoc : Document := { table := some [wEbayRow, wGoodRow, wNoLinkRow] }

/-- The listing extracted from `wGoodRow`. -/
def wStdListing : GpuListing :=
  { name := "CardW", status := "InStock", price := "$5.00", price_numeric := some 500,
    last_available := "Jan", link := "http://w" }

/-- The listing extracted from `wEbayRow`. -/
def wEbayListing : GpuListing :=
  { name := "Ebay", status := "Stock Available", price := "-", price_numeric := none,
    last_available := "-", link := "http://e" }

/-- A standard row whose fourth cell carries a whitespace-only title
attribute: the kind of row on which the two parse_listings copies
disagree. -/
def tRow : Row :=
  [ { links := [{ text := "CardW", href := some "http://w" }], text := "CardW", title := none }
  , { links := [], text := "InStock", title := none }
  , { links := [], text := "$5.00", title := none }
  , { links := [], text := "Feb", title := some " " } ]

/-- A document holding only `tRow`. -/
def tDoc : Document := { table := some [tRow] }

deriving instance DecidableEq for Except

/-- The accumulating loop of parse_listings is the filterMap of its loop
body over the rows, in document order. -/
theorem parseFold_eq_filterMap (f : Row → Option GpuListing) (rows : List Row) :
    ∀ acc : List GpuListing,
      rows.foldl (fun acc cells =>
        match f cells with
        | some l => acc ++ [l]
        | none => acc) acc = acc ++ rows.filterMap f := by
  induction rows with
  | nil => intro acc; simp
  | cons r rs ih =>
      intro acc
      simp only [List.foldl_cons, List.filterMap_cons]
      cases h : f r with
      | none => exact ih acc
      | some l => rw [ih (acc ++ [l])]; simp

/-- Claim C1 (as stated) is false: on the worked example rows, the default
filter excludes B, and sorting by price ascending puts A (numeric price)
before C (no numeric price), so the output is not [C, A]. -/
theorem c1_counterexample :
    sortListings .price false (filterListings false [exA, exB, exC]) ≠ [exC, exA] := by
  decide

/-- Claim C1 (amended): on the worked example rows, the default filter
excludes B, and sorting by price ascending yields exactly [A, C]: the
listing with a numeric price precedes the one without. -/
theorem c1_example_output :
    sortListings .price false (filterListings false [exA, exB, exC]) = [exA, exC] := by
  decide

/-- Claim C2 (as stated) is false: with the descending direction selected,
the comparator orders the listing with a numeric price (exA) after the one
without (exC), and the sorted output puts the no-price listing first, not
at the end. -/
theorem c2_counterexample :
    cmpWithDir .price true exA exC = Ordering.gt ∧
    sortListings .price true [exA, exC] = [exC, exA] := by
  decide

/-- Claim C2 (amended): for the price key, a listing with a numeric price
compares less than a listing without one before the direction flip, and
the direction flip is applied to the whole comparison result as a final
step, so the presence/absence tie-break is inverted by the descending
flag: ascending orders the numeric-price listing first, descending orders
it last. -/
theorem c2_tie_break (a b : GpuListing) (x : Nat)
    (ha : a.price_numeric = some x) (hb : b.price_numeric = none) :
    cmpWithDir .price false a b = Ordering.lt ∧
    cmpWithDir .price true a b = Ordering.gt := by
  unfold cmpWithDir cmpListings
  rw [ha, hb]
  exact ⟨rfl, rfl⟩

/-- Witness for c2_tie_break at the concrete pair exA, exC. -/
theorem c2_witness :
    cmpWithDir .price false exA exC = Ordering.lt ∧
    cmpWithDir .price true exA exC = Ordering.gt :=
  c2_tie_break exA exC 10000 (by decide) (by decide)

/-- Claim C3 (as stated) is false: the compiled pattern allows the run
before the decimal point to consist of commas only, so on the input ",.12"
parse_price finds the match ",.12", strips the comma and parses ".12" to
twelve cents, while the reference pattern of the claim requires a digit
before the point and matches nothing. -/
theorem c3_counterexample :
    parse_price ",.12" = some 12 ∧ refParsePrice ",.12" = none := by
  decide

/-- The single-position matchers of the compiled pattern and of the
amended reference pattern agree everywhere. -/
theorem matchPriceAt_eq_matchAmendedAt (cs : List Char) :
    matchPriceAt cs = matchAmendedAt cs := by
  cases cs with
  | nil => rfl
  | cons c cs =>
      simp only [matchPriceAt, matchAmendedAt, List.takeWhile_cons, List.dropWhile_cons]
      cases h : isPriceChar c <;> simp [h]

/-- The leftmost-match scanners of the compiled pattern and of the amended
reference pattern agree everywhere. -/
theorem findPriceMatch_eq_findAmendedMatch (cs : List Char) :
    findPriceMatch cs = findAmendedMatch cs := by
  induction cs with
  | nil => rfl
  | cons c cs ih =>
      unfold findPriceMatch findAmendedMatch
      rw [matchPriceAt_eq_matchAmendedAt]
      cases h : matchAmendedAt (c :: cs) <;> simp [h, ih]

/-- Claim C3 (amended): parse_price equals the reference definition with
the pattern the code actually compiles: for every input containing a
substring of one or more digits-or-commas, then a decimal point and two
digits, it returns the first such substring with commas removed parsed as
a decimal (so a match whose integer part is all commas parses as a
fraction only); for every other input it returns nothing. -/
theorem c3_parse_price_eq_amended_ref (s : String) :
    parse_price s = refParsePriceAmended s := by
  unfold parse_price refParsePriceAmended
  rw [findPriceMatch_eq_findAmendedMatch]

/-- Claim C6 (confirmed): the default filter removes exactly the listings
whose status compares equal, case-insensitively, to "out of stock" or
"not tracking", keeping everything else in order, and the show-all switch
removes nothing. -/
theorem c6_filter_policy_exact (ls : List GpuListing) :
    filterListings false ls = ls.filter (fun l => !excludedByDefault l) ∧
    filterListings true ls = ls := by
  refine ⟨?_, rfl⟩
  show ls.filter _ = ls.filter _
  congr 1
  funext item
  simp [excludedByDefault, bne, Bool.not_or]

/-- The listing picked by pickMin is one of the listings it was given. -/
theorem pickMin_mem (ls : List GpuListing) (l : GpuListing)
    (h : pickMin ls = some l) : l ∈ ls := by
  induction ls with
  | nil => simp [pickMin] at h
  | cons a as ih =>
      cases hp : pickMin as with
      | none =>
          simp only [pickMin, hp] at h
          injection h with h
          exact h ▸ List.mem_cons_self a as
      | some m =>
          simp only [pickMin, hp] at h
          split at h
          · injection h with h
            exact h ▸ List.mem_cons_self a as
          · injection h with h
            subst h
            exact List.mem_cons_of_mem a (ih hp)

/-- Claim C4 (confirmed, against the spec-modelled reduction): the
per-variant cheapest-each reduction never selects a listing whose status
is case-insensitively "preorder", and never selects a listing lacking a
numeric price, for either state of the show-all switch. -/
theorem c4_cheapest_excludes_preorder (showAll : Bool) (ls : List GpuListing)
    (l : GpuListing) (h : cheapestPick showAll ls = some l) :
    lowerStr l.status ≠ "preorder" ∧ l.price_numeric ≠ none := by
  unfold cheapestPick at h
  have hmem := pickMin_mem _ _ h
  rw [List.mem_filter] at hmem
  have hp := hmem.2
  simp only [Bool.and_eq_true, bne_iff_ne, ne_eq, Option.isSome_iff_ne_none] at hp
  exact ⟨hp.1, hp.2⟩

/-- Witness for c4_cheapest_excludes_preorder: on a variant whose cheapest
listing is a preorder (exPre at ten dollars), the reduction picks the
dearer in-stock listing exA instead. -/
theorem c4_witness : lowerStr exA.status ≠ "preorder" ∧ exA.price_numeric ≠ none :=
  c4_cheapest_excludes_preorder false [exPre, exA] exA (by decide)

/-- Claim C5 (confirmed): parse_listings fails exactly when the anchor
table is absent; when it is present the call returns Ok with the listings
its loop body accepts, in document order — malformed rows are skipped, not
errors. -/
theorem c5_error_iff_missing_anchor (doc : Document) :
    ((∃ e, scraper_parse_listings doc = Except.error e) ↔ doc.table = none) ∧
    (∀ rows, doc.table = some rows →
      scraper_parse_listings doc = Except.ok (rows.filterMap scraper_rowToListing)) := by
  obtain ⟨t⟩ := doc
  cases t with
  | none =>
      refine ⟨⟨fun _ => rfl, fun _ => ⟨missingTableMsg, rfl⟩⟩, ?_⟩
      intro rows hrows
      exact absurd hrows (by simp)
  | some rows =>
      constructor
      · constructor
        · rintro ⟨e, he⟩
          exact absurd he (by simp [scraper_parse_listings])
        · intro hc
          exact absurd hc (by simp)
      · intro rows2 hrows
        have h2 : some rows = some rows2 := hrows
        injection h2 with h2
        subst h2
        simp [scraper_parse_listings, parseFold_eq_filterMap]

/-- Witness for c5_error_iff_missing_anchor at the concrete document
wDoc, whose anchor table is present. -/
theorem c5_witness :
    scraper_parse_listings wDoc =
      Except.ok ([wEbayRow, wGoodRow, wNoLinkRow].filterMap scraper_rowToListing) :=
  (c5_error_iff_missing_anchor wDoc).2 [wEbayRow, wGoodRow, wNoLinkRow] (by decide)

/-- One step of the cross-variant concatenation. -/
theorem crossVariant_cons (showAll : Bool) (o : Option (List GpuListing))
    (rest : List (Option (List GpuListing))) :
    crossVariant showAll (o :: rest) =
      (match o with
       | none => []
       | some ls => (cheapestPick showAll ls).toList) ++ crossVariant showAll rest := rfl

/-- The cross-variant concatenation distributes over list append. -/
theorem crossVariant_append (showAll : Bool)
    (xs ys : List (Option (List GpuListing))) :
    crossVariant showAll (xs ++ ys) =
      crossVariant showAll xs ++ crossVariant showAll ys := by
  induction xs with
  | nil => rfl
  | cons x xs ih =>
      rw [List.cons_append, crossVariant_cons, crossVariant_cons, ih, List.append_assoc]

/-- Claim C9 (confirmed, against the spec-modelled cross-variant mode with
the per-variant error isolation of src/web.rs): a failing variant
contributes nothing, every other variant's contribution is exactly its own
pick unchanged, the call always produces a result, and the output length
is at most the number of non-failing variants — so with exactly one of N
variants failing, at most N minus one entries. -/
theorem c9_variant_isolation (showAll : Bool) :
    (∀ pre post, crossVariant showAll (pre ++ none :: post) =
        crossVariant showAll pre ++ crossVariant showAll post) ∧
    (∀ pre ls post, crossVariant showAll (pre ++ some ls :: post) =
        crossVariant showAll pre ++ (cheapestPick showAll ls).toList ++
          crossVariant showAll post) ∧
    (∀ outcomes : List (Option (List GpuListing)),
        (crossVariant showAll outcomes).length ≤
          (outcomes.filter Option.isSome).length) := by
  refine ⟨?_, ?_, ?_⟩
  · intro pre post
    rw [crossVariant_append, crossVariant_cons]
    rfl
  · intro pre ls post
    rw [crossVariant_append, crossVariant_cons, List.append_assoc]
  · intro outcomes
    induction outcomes with
    | nil => simp [crossVariant]
    | cons o rest ih =>
        rw [crossVariant_cons]
        cases o with
        | none => simpa using ih
        | some ls =>
            have := ih
            cases hc : cheapestPick showAll ls with
            | none => simp [hc, List.filter_cons]; omega
            | some p => simp [hc, List.filter_cons]; omega

/-- Every listing produced by the marketplace branch has a name containing
"Ebay", the raw price "-" and no numeric price. -/
theorem ebayRow_fields (cells : Row) (l : GpuListing) (h : ebayRow cells = some l) :
    containsSubstr l.name "Ebay" = true ∧ l.price = "-" ∧ l.price_numeric = none := by
  unfold ebayRow at h
  split at h
  · rename_i c0 c1
    split at h
    · split at h
      · rename_i hc
        injection h with h
        subst h
        exact ⟨hc, rfl, rfl⟩
      · simp at h
    · simp at h
  · simp at h

/-- Every listing produced by the standard branch has a valid name and a
numeric price derived from its raw price by parse_price. -/
theorem standardRow_fields (cells : Row) (l : GpuListing)
    (h : scraper_standardRow cells = some l) :
    l.name ≠ "" ∧ l.name ≠ "N/A" ∧ l.price_numeric = parse_price l.price := by
  unfold scraper_standardRow at h
  split at h
  · simp at h
  · split at h
    · simp at h
    · rename_i hguard
      injection h with h
      subst h
      simp only [Bool.or_eq_true, not_or, beq_iff_eq, String.isEmpty_iff] at hguard
      exact ⟨hguard.2, hguard.1, rfl⟩

/-- Every listing produced by the loop body of parse_listings in
src/scraper.rs has a valid name and a consistent numeric price. -/
theorem scraper_row_fields (cells : Row) (l : GpuListing)
    (h : scraper_rowToListing cells = some l) :
    l.name ≠ "" ∧ l.name ≠ "N/A" ∧ l.price_numeric = parse_price l.price := by
  unfold scraper_rowToListing at h
  cases he : ebayRow cells with
  | some e =>
      simp only [he] at h
      obtain ⟨hc, hp, hn⟩ := ebayRow_fields cells e he
      injection h with h
      subst h
      refine ⟨?_, ?_, ?_⟩
      · intro h0
        rw [h0] at hc
        exact absurd hc (by decide)
      · intro h0
        rw [h0] at hc
        exact absurd hc (by decide)
      · rw [hp, hn]
        decide
  | none =>
      simp only [he] at h
      exact standardRow_fields cells l h

/-- Every member of a successful parse came from some row accepted by the
loop body. -/
theorem scraper_ok_row (doc : Document) (ls : List GpuListing)
    (h : scraper_parse_listings doc = Except.ok ls) (l : GpuListing) (hl : l ∈ ls) :
    ∃ cells, scraper_rowToListing cells = some l := by
  obtain ⟨t⟩ := doc
  cases t with
  | none => simp [scraper_parse_listings] at h
  | some rows =>
      simp only [scraper_parse_listings, parseFold_eq_filterMap, List.nil_append] at h
      injection h with h
      subst h
      rw [List.mem_filterMap] at hl
      obtain ⟨cells, _, hc⟩ := hl
      exact ⟨cells, hc⟩

/-- The standard branch rejects a row whose extracted name is the sentinel
or empty. -/
theorem standardRow_none_of_badName (cells : Row)
    (hname : (standardNameLink cells).1 = "N/A" ∨ (standardNameLink cells).1 = "") :
    scraper_standardRow cells = none := by
  unfold scraper_standardRow
  split
  · rfl
  · have hcond : ((standardNameLink cells).1 == "N/A" ||
        (standardNameLink cells).1.isEmpty) = true := by
      rcases hname with h | h <;> simp [h, String.isEmpty_iff]
    rw [if_pos hcond]

/-- Claim C7 (confirmed): every listing returned by parse_listings has a
name that is neither empty nor the sentinel "N/A", and a standard-shape
row (four or more cells) whose first cell has no anchor, or whose anchor
text trims to the empty string, produces no listing at all. -/
theorem c7_names_valid (doc : Document) (ls : List GpuListing)
    (h : scraper_parse_listings doc = Except.ok ls) :
    (∀ l ∈ ls, l.name ≠ "" ∧ l.name ≠ "N/A") ∧
    (∀ cells : Row, 4 ≤ cells.length →
      ((cells.get? 0).bind (fun c => c.links.head?) = none ∨
       (∃ le, (cells.get? 0).bind (fun c => c.links.head?) = some le ∧
         trimStr le.text = "")) →
      scraper_rowToListing cells = none) := by
  constructor
  · intro l hl
    obtain ⟨cells, hc⟩ := scraper_ok_row doc ls h l hl
    exact ⟨(scraper_row_fields cells l hc).1, (scraper_row_fields cells l hc).2.1⟩
  · intro cells hlen hbad
    rcases cells with _ | ⟨c0, cells⟩
    · simp at hlen
    rcases cells with _ | ⟨c1, cells⟩
    · simp at hlen
    rcases cells with _ | ⟨c2, cells⟩
    · simp at hlen
    rcases cells with _ | ⟨c3, cells⟩
    · simp at hlen
    have he : ebayRow (c0 :: c1 :: c2 :: c3 :: cells) = none := rfl
    have hstd : scraper_standardRow (c0 :: c1 :: c2 :: c3 :: cells) = none := by
      apply standardRow_none_of_badName
      rcases hbad with hb | ⟨le, hb, htrim⟩
      · left
        unfold standardNameLink
        rw [hb]
        rfl
      · right
        unfold standardNameLink
        rw [hb]
        simpa using htrim
    unfold scraper_rowToListing
    rw [he, hstd]

/-- Witness for c7_names_valid at the concrete document wDoc. -/
theorem c7_witness : wStdListing.name ≠ "" ∧ wStdListing.name ≠ "N/A" :=
  (c7_names_valid wDoc [wEbayListing, wStdListing] (by decide)).1 wStdListing (by decide)

/-- Claim C8 (confirmed): every listing returned by parse_listings carries
a numeric price equal to parse_price of its own raw price text, and every
marketplace-branch listing has raw price "-" and no numeric price. -/
theorem c8_price_consistent (doc : Document) (ls : List GpuListing)
    (h : scraper_parse_listings doc = Except.ok ls) :
    (∀ l ∈ ls, l.price_numeric = parse_price l.price) ∧
    (∀ cells l2, ebayRow cells = some l2 → l2.price = "-" ∧ l2.price_numeric = none) := by
  constructor
  · intro l hl
    obtain ⟨cells, hc⟩ := scraper_ok_row doc ls h l hl
    exact (scraper_row_fields cells l hc).2.2
  · intro cells l2 h2
    exact (ebayRow_fields cells l2 h2).2

/-- Witness for c8_price_consistent at the concrete document wDoc, on its
marketplace listing. -/
theorem c8_witness : wEbayListing.price_numeric = parse_price wEbayListing.price :=
  (c8_price_consistent wDoc [wEbayListing, wStdListing] (by decide)).1 wEbayListing (by decide)

/-- The two standard-row branches agree after erasing last_available. -/
theorem standardRow_scrub (cells : Row) :
    (main_standardRow cells).map scrubLast = (scraper_standardRow cells).map scrubLast := by
  unfold main_standardRow scraper_standardRow
  split_ifs <;> rfl

/-- The two loop bodies agree after erasing last_available. -/
theorem rowToListing_scrub (cells : Row) :
    (main_rowToListing cells).map scrubLast = (scraper_rowToListing cells).map scrubLast := by
  unfold main_rowToListing scraper_rowToListing
  cases he : ebayRow cells with
  | some e => simp [he]
  | none =>
      simp only [he]
      exact standardRow_scrub cells

/-- When the fourth cell's title attribute is absent or is non-empty and
already trimmed, the two last_available rules agree. -/
theorem lastAvailable_eq (cells : Row)
    (hT : ∀ c ∈ cells, c.title.all (fun t => trimStr t == t && !t.isEmpty) = true) :
    main_lastAvailable cells = scraper_lastAvailable cells := by
  unfold main_lastAvailable scraper_lastAvailable
  cases hg : cells.get? 3 with
  | none => rfl
  | some cell =>
      have ht := hT cell (List.get?_mem hg)
      cases hti : cell.title with
      | none => simp [hti]
      | some t =>
          rw [hti] at ht
          simp only [Option.all_some, Bool.and_eq_true, beq_iff_eq] at ht
          have h2 : t.isEmpty = false := by simpa using ht.2
          simp [hti, Option.filter, ht.1, h2]

/-- Under the title condition the two loop bodies agree exactly. -/
theorem rowToListing_eq (cells : Row)
    (hT : ∀ c ∈ cells, c.title.all (fun t => trimStr t == t && !t.isEmpty) = true) :
    main_rowToListing cells = scraper_rowToListing cells := by
  unfold main_rowToListing scraper_rowToListing
  cases he : ebayRow cells with
  | some e => simp [he]
  | none =>
      simp only [he]
      unfold main_standardRow scraper_standardRow
      rw [lastAvailable_eq cells hT]

/-- Under the title condition the two extractors agree on every row
list. -/
theorem filterMap_rows_eq (rows : List Row)
    (hT : ∀ cells ∈ rows, ∀ c ∈ cells,
      c.title.all (fun t => trimStr t == t && !t.isEmpty) = true) :
    List.filterMap main_rowToListing rows = List.filterMap scraper_rowToListing rows := by
  induction rows with
  | nil => rfl
  | cons r rs ih =>
      rw [List.filterMap_cons, List.filterMap_cons,
        rowToListing_eq r (fun c hc => hT r (List.mem_cons_self r rs) c hc),
        ih (fun cells hcs c hc => hT cells (List.mem_cons_of_mem r hcs) c hc)]

/-- Claim C10 (as stated) is false: on the document tDoc, whose single
standard row carries a whitespace-only title attribute on its fourth cell,
the two parse_listings copies return different listing sequences — the
main.rs copy stores the attribute verbatim, the scraper.rs copy falls back
to the visible text. -/
theorem c10_counterexample :
    main_parse_listings tDoc ≠ scraper_parse_listings tDoc := by
  decide

/-- Claim C10 (amended): the two parse_listings copies agree on every
field except possibly last_available for every input document (their
results are equal after erasing last_available, with identical error
behaviour), and they return fully equal sequences on every document whose
cells carry no title attribute or only title attributes that are non-empty
and equal to their own trim; they disagree exactly when a standard row's
fourth-cell title is empty, whitespace-only, or untrimmed. -/
theorem c10_agree_modulo_last (doc : Document) :
    (main_parse_listings doc).map (List.map scrubLast) =
      (scraper_parse_listings doc).map (List.map scrubLast) ∧
    (((doc.table.getD []).all (fun cells => cells.all (fun c =>
        c.title.all (fun t => trimStr t == t && !t.isEmpty)))) = true →
      main_parse_listings doc = scraper_parse_listings doc) := by
  obtain ⟨t⟩ := doc
  cases t with
  | none => exact ⟨rfl, fun _ => rfl⟩
  | some rows =>
      constructor
      · simp only [main_parse_listings, scraper_parse_listings, parseFold_eq_filterMap,
          List.nil_append, Except.map]
        rw [List.map_filterMap, List.map_filterMap]
        simp only [rowToListing_scrub]
      · intro hT
        simp only [Option.getD_some, List.all_eq_true] at hT
        simp only [main_parse_listings, scraper_parse_listings, parseFold_eq_filterMap,
          List.nil_append]
        rw [filterMap_rows_eq rows hT]

/-- Witness for c10_agree_modulo_last at the concrete document wDoc,
none of whose cells carries a title attribute. -/
theorem c10_witness : main_parse_listings wDoc = scraper_parse_listings wDoc :=
  (c10_agree_modulo_last wDoc).2 (by decide)

end GpuCheck
